import Mathlib

/-!
Formal model of the schedule rendering and query engine of the
`Triagle/timetable` command-line tool (file `timetable/main.py`).

Times of day are modelled as hour/minute/second triples of naturals
(Python `datetime.time` without microseconds, which cancel everywhere they
could matter in this code).  Dates are modelled as integers counting days
from an epoch that falls on a Monday, so that `weekday d = d % 7` matches
Python's `datetime.weekday()` convention (0 = Monday .. 6 = Sunday).

The activity selector `timetable.activities_on` and the drawing layer
(`drawille.Canvas`, `draw.table`, `draw.timeline`, `canvas.frame`) live in
modules that are not part of the given sources; the spec treats them as
external collaborators, and here they are abstract function parameters.
The location resolver `Activity.location_valid_for` is likewise absent and
is modelled from the spec (see its doc comment).
-/

set_option autoImplicit false

namespace TimetableModel

/-- A wall-clock time of day, mirroring Python's `datetime.time`
(hour/minute/second; microseconds are irrelevant to the modelled code). -/
structure Time where
  hour : Nat
  minute : Nat
  second : Nat
  deriving DecidableEq, Repr

/-- Python's `<` on `datetime.time` values: lexicographic on
(hour, minute, second). -/
def Time.ltb (a b : Time) : Bool :=
  decide (a.hour < b.hour) ||
    (decide (a.hour = b.hour) &&
      (decide (a.minute < b.minute) ||
        (decide (a.minute = b.minute) && decide (a.second < b.second))))

/-- A place together with the date window over which it is valid. -/
structure Location where
  place : String
  valid_from : Int
  valid_to : Int
  deriving DecidableEq, Repr

/-- One scheduled occurrence of a course: a name, a weekday
(0 = Monday .. 6 = Sunday), a start and end time of day, and the ordered
time-bounded locations. -/
structure Activity where
  name : String
  day : Nat
  start : Time
  «end» : Time
  locations : List Location
  deriving DecidableEq, Repr

/-- A course; only its title is consulted by the rendering engine. -/
structure Course where
  title : String
  deriving DecidableEq, Repr

/-- Modelled `strftime` two-digit zero-padded field (`%H`, `%M`): both are
below 60 for every valid Python time, so two digits always suffice. -/
def pad2 (n : Nat) : String :=
  String.mk [Nat.digitChar (n / 10), Nat.digitChar (n % 10)]

/-- Modelled `strftime('%H:%M')`. -/
def fmtHM (t : Time) : String :=
  pad2 t.hour ++ ":" ++ pad2 t.minute

/-- First-seen element with the largest `valid_to` among a list of
locations (Python `max`-style scan keeping the earlier element on ties). -/
def latest_before : List Location → Option Location
  | [] => none
  | x :: xs => some (xs.foldl (fun cur y => if cur.valid_to < y.valid_to then y else cur) x)

/-- Modelled from the spec: `Activity.location_valid_for` is defined in the
repository's `timetable` module, which is not among the given sources.  Per
spec section 4.2 it returns the first location whose validity window contains
the date; failing that, the location with the window closest to but before
the date; failing that, the first declared location.  The final fallback for
an activity with no locations at all never arises (the data model requires
one or more locations). -/
def location_valid_for (a : Activity) (d : Int) : Location :=
  match a.locations.filter (fun l => decide (l.valid_from ≤ d) && decide (d ≤ l.valid_to)) with
  | l :: _ => l
  | [] =>
    match latest_before (a.locations.filter (fun l => decide (l.valid_to < d))) with
    | some l => l
    | none => a.locations.headD ⟨"", 0, 0⟩

/-- `print_activity` (main.py line 90): the single line printed for one
(course, activity) pair.  `colour_of` stands for
`config.colour_of_course(config_dict, course).value` and `reset` for
`config.TermColour.RESET.value`; both are external configuration values. -/
def print_activity (colour_of : Course → String) (reset : String) (d : Int)
    (c : Course) (a : Activity) : String :=
  fmtHM a.start ++ " - " ++ fmtHM a.«end» ++ " :: " ++
    (colour_of c ++ c.title ++ reset) ++ " " ++ a.name ++ " @ " ++
    (location_valid_for a d).place

/-- The non-timeline branch of `show_timetable` (main.py line 230): one
`print_activity` line per (course, activity) pair, in selector order. -/
def day_view_lines (colour_of : Course → String) (reset : String) (d : Int)
    (acts : List (Course × Activity)) : List String :=
  acts.map (fun ca => print_activity colour_of reset d ca.1 ca.2)

/-- Split a character list at newline characters (the line structure of a
rendered text block). -/
def splitNl : List Char → List (List Char)
  | [] => [[]]
  | c :: cs =>
    match splitNl cs with
    | [] => [[c]]
    | g :: gs => if c = '\n' then [] :: g :: gs else (c :: g) :: gs

/-- The text block built for one activity by `print_timeline`
(main.py line 149). -/
def activity_text (c : Course) (a : Activity) (loc : Location) : String :=
  c.title ++ "\n\n" ++ a.name ++ "\n" ++ loc.place ++ "\n" ++ fmtHM a.«end»

/-- The (course, activity, resolved location) triples of `print_timeline`
(main.py line 126). -/
def timeline_triples (d : Int) (acts : List (Course × Activity)) :
    List (Course × Activity × Location) :=
  acts.map (fun ca => (ca.1, ca.2, location_valid_for ca.2 d))

/-- The strings whose lengths bound the box width in `print_timeline`
(main.py lines 128-132), in the order `itertools.chain` visits them:
all titles, then all names, then all places. -/
def timeline_lines (d : Int) (acts : List (Course × Activity)) : List String :=
  (timeline_triples d acts).map (fun t => t.1.title) ++
    (timeline_triples d acts).map (fun t => t.2.1.name) ++
    (timeline_triples d acts).map (fun t => t.2.2.place)

/-- The length of the longest string among titles, names and places
(Python `max(len(line) for line in chain(...))`; the fold with base `0`
agrees with it on the nonempty lists the code guards for). -/
def timeline_max_len (d : Int) (acts : List (Course × Activity)) : Nat :=
  (timeline_lines d acts).foldl (fun m s => Nat.max m s.length) 0

/-- `OrderedDict` lookup on an insertion-ordered association list. -/
def aget (k : String) : List (String × List String) → Option (List String)
  | [] => none
  | (k', v) :: rest => if k' = k then some v else aget k rest

/-- `OrderedDict` assignment: an existing key keeps its position, a new key
is appended at the end. -/
def aset (k : String) (v : List String) : List (String × List String) →
    List (String × List String)
  | [] => [(k, v)]
  | (k', v') :: rest => if k' = k then (k', v) :: rest else (k', v') :: aset k v rest

/-- One iteration of the binning loop of `print_timeline`
(main.py lines 146-151): fetch the bin (default empty), append, store. -/
def od_insert (k : String) (t : String) (m : List (String × List String)) :
    List (String × List String) :=
  aset k ((aget k m).getD [] ++ [t]) m

/-- The whole binning loop over a key/text sequence. -/
def od_build (l : List (String × String)) : List (String × List String) :=
  l.foldl (fun m kv => od_insert kv.1 kv.2 m) []

/-- The `mapping` ordered dictionary of `print_timeline`: text blocks binned
by `%H:%M` start time. -/
def timeline_mapping (d : Int) (acts : List (Course × Activity)) :
    List (String × List String) :=
  od_build ((timeline_triples d acts).map
    (fun t => (fmtHM t.2.1.start, activity_text t.1 t.2.1 t.2.2)))

/-- The abstract layout `print_timeline` hands to the external renderer
(`draw.timeline` on a `drawille.Canvas`). -/
structure TimelineLayout where
  box_width : Nat
  box_height : Nat
  mapping : List (String × List String)
  deriving DecidableEq, Repr

/-- `print_timeline` (main.py line 112): `none` models the early return on
an empty activity list, before any canvas is created or drawn on. -/
def print_timeline (d : Int) (acts : List (Course × Activity)) :
    Option TimelineLayout :=
  match acts with
  | [] => none
  | _ :: _ =>
    some { box_width := timeline_max_len d acts * 4
           box_height := 25
           mapping := timeline_mapping d acts }

/-- Python `datetime.weekday()` under the day-count model: the epoch is a
Monday, so the weekday index is the day count modulo 7. -/
def weekday (d : Int) : Nat :=
  (d % 7).toNat

/-- `find_day_of_week` (main.py line 158):
`date + timedelta(days = weekday - date.weekday())`. -/
def find_day_of_week (d : Int) (w : Nat) : Int :=
  d + ((w : Int) - (weekday d : Int))

/-- The Monday..Friday dates of the week of `d`
(main.py lines 163-166, `range(calendar.MONDAY, calendar.SATURDAY)`). -/
def week_dates (d : Int) : List Int :=
  (List.range 5).map (fun day => find_day_of_week d day)

/-- The chained union of the activities on each weekday of the week
(main.py lines 167-170).  `acts_on` stands for
`timetable.activities_on(courses, date, selected_activities)`, an external
collaborator already closed over the courses and the selection map. -/
def week_day_activities (acts_on : Int → List (Course × Activity)) (d : Int) :
    List (Course × Activity) :=
  (week_dates d).flatMap acts_on

/-- `calendar.day_name`. -/
def day_name : List String :=
  ["Monday", "Tuesday", "Wednesday", "Thursday", "Friday", "Saturday", "Sunday"]

/-- The header row `[''] + calendar.day_name[:5]` (main.py line 187). -/
def week_header_row : List String :=
  "" :: day_name.take 5

/-- The `rendered_activities` default-dictionary of `print_week_timetable`
(main.py lines 179-186), as a total map from (weekday, hour) to the cell
texts appended so far.  Every key actually used has minute and second zero,
so the hour alone identifies the time component. -/
def week_cells (l : List (Course × Activity)) : Nat × Nat → List String :=
  l.foldl
    (fun m ca =>
      (List.range (ca.2.«end».hour - ca.2.start.hour)).foldl
        (fun m' k =>
          fun q =>
            if q = (ca.2.day, ca.2.start.hour + k) then
              m' (ca.2.day, ca.2.start.hour + k) ++ [ca.1.title ++ " " ++ ca.2.name]
            else m' q)
        m)
    (fun _ => [])

/-- Python `min(day_activities, key=lambda act: act[1].start)[1].start`
(main.py line 173): value of the first minimising element. -/
def min_start_time (x : Course × Activity) (xs : List (Course × Activity)) : Time :=
  xs.foldl (fun cur y => if Time.ltb y.2.start cur then y.2.start else cur) x.2.start

/-- Python `max(day_activities, key=lambda act: act[1].end)[1].end`
(main.py line 174): value of the first maximising element. -/
def max_end_time (x : Course × Activity) (xs : List (Course × Activity)) : Time :=
  xs.foldl (fun cur y => if Time.ltb cur y.2.«end» then y.2.«end» else cur) x.2.«end»

/-- `earliest_time.replace(minute=0, second=0)` (main.py line 175). -/
def truncate_hour (t : Time) : Time :=
  ⟨t.hour, 0, 0⟩

/-- Main.py lines 176-178: add one hour and zero the minute and second when
the end time has a nonzero minute or second component.  The hour addition is
`datetime` arithmetic, so at 23:xx it rolls over past midnight to hour 0. -/
def round_up_hour (t : Time) : Time :=
  if 0 < t.minute + t.second then ⟨(t.hour + 1) % 24, 0, 0⟩ else t

/-- `'\n'.join` (main.py line 195). -/
def join_nl (l : List String) : String :=
  String.intercalate "\n" l

/-- The `%H:%M` label of a whole hour. -/
def hour_label (h : Nat) : String :=
  fmtHM ⟨h, 0, 0⟩

/-- `print_week_timetable` (main.py line 162): `none` models the early
return on an empty weekly union, before any canvas is created; otherwise the
`rendered_timetable` table handed to `draw.table`. -/
def print_week_timetable (acts_on : Int → List (Course × Activity)) (d : Int) :
    Option (List (List String)) :=
  match week_day_activities acts_on d with
  | [] => none
  | x :: xs =>
    let earliest := truncate_hour (min_start_time x xs)
    let latest := round_up_hour (max_end_time x xs)
    let cells := week_cells (x :: xs)
    let hours := latest.hour - earliest.hour
    some (week_header_row ::
      (List.range hours).map (fun k =>
        hour_label (earliest.hour + k) ::
          (List.range (day_name.length - 2)).map (fun day =>
            join_nl (cells (day, earliest.hour + k)))))

/-- `show_week` (main.py line 203), as the list of lines printed to stdout.
`fmt` stands for the external `strftime('week %U of %Y')` and `render` for
`canvas.frame()` after `draw.table`. -/
def show_week (render : List (List String) → String) (fmt : Int → String)
    (acts_on : Int → List (Course × Activity)) (d : Int) : List String :=
  ("Showing timetable for " ++ fmt d) ::
    (match print_week_timetable acts_on d with
     | none => []
     | some tbl => [render tbl])

/-- Python `datetime.datetime`: a day count plus a time of day with
microseconds. -/
structure DateTime where
  day : Int
  hour : Nat
  minute : Nat
  second : Nat
  micro : Nat
  deriving DecidableEq, Repr

/-- `datetime.time()`: the time-of-day part (the microsecond part plays no
role in the modelled comparisons because activity start times carry zero
microseconds). -/
def DateTime.time (t : DateTime) : Time :=
  ⟨t.hour, t.minute, t.second⟩

/-- A datetime as a number of microseconds from the epoch; differences of
these model `datetime` subtraction (a `timedelta`). -/
def DateTime.toMicros (t : DateTime) : Int :=
  t.day * 86400000000 + (t.hour : Int) * 3600000000 + (t.minute : Int) * 60000000 +
    (t.second : Int) * 1000000 + (t.micro : Int)

/-- `now.replace(hour=h, minute=m)` (main.py line 252): the second and
microsecond components of `now` are retained. -/
def replace_hour_minute (now : DateTime) (h m : Nat) : DateTime :=
  { now with hour := h, minute := m }

/-- The upcoming-activity scan of `show_next` (main.py lines 248-249):
the first pair whose start time is strictly later than `now.time()`. -/
def find_next (acts : List (Course × Activity)) (t : Time) :
    Option (Course × Activity) :=
  acts.find? (fun ca => Time.ltb t ca.2.start)

/-- The `--time` branch of `show_next` (main.py lines 252-253): the printed
`timedelta`, in microseconds. -/
def next_time_delta (now : DateTime) (a : Activity) : Int :=
  (replace_hour_minute now a.start.hour a.start.minute).toMicros - now.toMicros

/-- Modelled from the spec: the delta as spec section 4.6 words it, `next
activity's start, anchored to today's date, minus now`, for comparison with
the code's `next_time_delta`. -/
def spec_time_delta (now : DateTime) (a : Activity) : Int :=
  (DateTime.mk now.day a.start.hour a.start.minute a.start.second 0).toMicros -
    now.toMicros

/-- The three subcommands docopt can report. -/
inductive Cmd where
  | showCmd
  | weekCmd
  | nextCmd
  deriving DecidableEq, Repr

/-- The command-line arguments `main` consults for control flow. -/
structure Args where
  cmd : Cmd
  drop_cache : Bool
  verbose : Bool
  deriving DecidableEq, Repr

/-- The externally visible effects of one run of `main` (main.py line 260):
re-fetching a course's activities, running a view flow, and persisting the
course list to the cache path. -/
inductive Effect where
  | fetch (course : String)
  | view (c : Cmd)
  | write_cache (courses : List String)
  deriving DecidableEq, Repr

/-- Recogniser for cache-persistence effects. -/
def is_write_cache : Effect → Bool
  | Effect.write_cache _ => true
  | _ => false

/-- The course list `main` ends up holding (and persisting): the configured
courses when the cache is absent or dropped, the cached data otherwise
(main.py lines 274-279).  Courses are identified by title here. -/
def run_courses (data : Option (List String)) (config_courses : List String)
    (args : Args) : List String :=
  match data with
  | none => config_courses
  | some cached => if args.drop_cache then config_courses else cached

/-- `main` (main.py lines 260-286) as the effect trace of a run.
`parse_ok` models `COMMAND_SCHEMA.validate` succeeding and `config_ok`
models `get_config` succeeding; failures exit before any view flow runs. -/
def main_run (parse_ok : Bool) (config_ok : Bool) (data : Option (List String))
    (config_courses : List String) (args : Args) : Except String (List Effect) :=
  if !parse_ok then Except.error "usage" else
  if !config_ok then
    Except.error (if args.verbose then "config error detail" else "Failed to parse config.")
  else
    let fetches :=
      match data with
      | none => config_courses.map Effect.fetch
      | some _ =>
        if args.drop_cache then config_courses.map Effect.fetch else []
    Except.ok (fetches ++
      [Effect.view args.cmd, Effect.write_cache (run_courses data config_courses args)])

/-- First occurrences of keys, skipping those already seen. -/
def first_seen_from (seen : List String) : List String → List String
  | [] => []
  | x :: xs =>
    if x ∈ seen then first_seen_from seen xs
    else x :: first_seen_from (x :: seen) xs

/-- The keys of a sequence in first-occurrence order. -/
def first_seen (l : List String) : List String :=
  first_seen_from [] l

/-! Concrete fixtures used when instantiating the theorems below. -/

/-- Room "A1", valid from the epoch onward. -/
def locW : Location := ⟨"A1", 0, 1000⟩

/-- The course "CS101" of the spec's end-to-end example. -/
def courseW : Course := ⟨"CS101"⟩

/-- A second course. -/
def courseM : Course := ⟨"MATH102"⟩

/-- Monday 09:00-10:00 at A1 (the spec's end-to-end example). -/
def actW : Activity := ⟨"Lecture", 0, ⟨9, 0, 0⟩, ⟨10, 0, 0⟩, [locW]⟩

/-- Monday 09:00-10:30. -/
def actHalf : Activity := ⟨"Lecture", 0, ⟨9, 0, 0⟩, ⟨10, 30, 0⟩, [locW]⟩

/-- Tuesday 13:00-14:00. -/
def actAft : Activity := ⟨"Tutorial", 1, ⟨13, 0, 0⟩, ⟨14, 0, 0⟩, [locW]⟩

/-- Monday 14:00-15:00. -/
def act14 : Activity := ⟨"Seminar", 0, ⟨14, 0, 0⟩, ⟨15, 0, 0⟩, [locW]⟩

/-- Monday 09:00-09:50: starts and ends inside the same clock hour. -/
def actShort : Activity := ⟨"Quiz", 0, ⟨9, 0, 0⟩, ⟨9, 50, 0⟩, [locW]⟩

/-- A second Monday activity also starting at 09:00. -/
def actB : Activity := ⟨"Workshop", 0, ⟨9, 0, 0⟩, ⟨11, 0, 0⟩, [locW]⟩

/-- 10:00:00.000000 on the epoch day. -/
def now0 : DateTime := ⟨0, 10, 0, 0, 0⟩

/-- 10:00:30.000000 on the epoch day. -/
def nowX : DateTime := ⟨0, 10, 0, 30, 0⟩

/-- 15:00:00.000000 on the epoch day. -/
def now15 : DateTime := ⟨0, 15, 0, 0, 0⟩

/-- A plain `show` invocation. -/
def argsW : Args := ⟨Cmd.showCmd, false, false⟩

/-- An activity selector with the two example activities on the Monday
date `0` and nothing on the other weekdays. -/
def c1_acts_on : Int → List (Course × Activity) :=
  fun d => if d = 0 then [(courseW, actHalf), (courseM, actAft)] else []

/-- A colour lookup fixture. -/
def colW : Course → String := fun _ => "<red>"

/-- A colour-reset fixture. -/
def resW : String := "</>"

/-! Helper lemmas. -/

theorem splitNl_ne_nil (l : List Char) : splitNl l ≠ [] := by
  cases l with
  | nil => simp [splitNl]
  | cons c cs =>
    simp only [splitNl]
    cases h : splitNl cs with
    | nil => simp
    | cons g gs =>
      by_cases hc : c = '\n' <;> simp [hc]

theorem splitNl_no_nl (l : List Char) (h : '\n' ∉ l) : splitNl l = [l] := by
  induction l with
  | nil => rfl
  | cons c cs ih =>
    have hc : c ≠ '\n' := fun hh => h (hh ▸ List.mem_cons_self c cs)
    have hcs : '\n' ∉ cs := fun hh => h (List.mem_cons_of_mem c hh)
    simp only [splitNl, ih hcs]
    simp [hc]

theorem splitNl_append (a rest : List Char) (h : '\n' ∉ a) :
    splitNl (a ++ '\n' :: rest) = a :: splitNl rest := by
  induction a with
  | nil =>
    simp only [List.nil_append, splitNl]
    cases hr : splitNl rest with
    | nil => exact absurd hr (splitNl_ne_nil rest)
    | cons g gs => simp
  | cons c cs ih =>
    have hc : c ≠ '\n' := fun hh => h (hh ▸ List.mem_cons_self c cs)
    have hcs : '\n' ∉ cs := fun hh => h (List.mem_cons_of_mem c hh)
    simp only [List.cons_append, splitNl, List.append_eq]
    rw [ih hcs]
    simp [hc]

theorem digitChar_ne_newline (n : Nat) : Nat.digitChar n ≠ '\n' := by
  by_cases h : n < 16
  · interval_cases n <;> decide
  · unfold Nat.digitChar
    repeat rw [if_neg (by omega)]
    decide

theorem fmtHM_data (t : Time) :
    (fmtHM t).data = [Nat.digitChar (t.hour / 10), Nat.digitChar (t.hour % 10), ':',
      Nat.digitChar (t.minute / 10), Nat.digitChar (t.minute % 10)] := by
  simp [fmtHM, pad2, String.data_append]

theorem noNl_fmtHM (t : Time) : '\n' ∉ (fmtHM t).data := by
  rw [fmtHM_data]
  intro h
  simp only [List.mem_cons, List.not_mem_nil, or_false] at h
  rcases h with h | h | h | h | h
  · exact digitChar_ne_newline _ h.symm
  · exact digitChar_ne_newline _ h.symm
  · exact absurd h (by decide)
  · exact digitChar_ne_newline _ h.symm
  · exact digitChar_ne_newline _ h.symm

theorem activity_text_data (c : Course) (a : Activity) (loc : Location) :
    (activity_text c a loc).data =
      c.title.data ++ '\n' :: '\n' ::
        (a.name.data ++ '\n' :: (loc.place.data ++ '\n' :: (fmtHM a.«end»).data)) := by
  have h2 : ("\n\n" : String).data = ['\n', '\n'] := rfl
  have h1 : ("\n" : String).data = ['\n'] := rfl
  simp [activity_text, String.data_append, h1, h2]

/-! Claim C2. -/

/-- Claim C2 counterexample: at a concrete (course, activity, location) the
text block built by the timeline layout engine has five lines, not the four
the claim states. -/
theorem timeline_block_not_four_lines :
    ¬ (splitNl (activity_text courseW actW locW).data).length = 4 ∧
      (splitNl (activity_text courseW actW locW).data).length = 5 := by
  constructor
  · decide
  · decide

/-- Claim C2 (amended): for every activity passed to the timeline layout
engine whose title, name and resolved place contain no newline, the engine
builds a five-line text block: the course title, a blank separator line, the
activity name, the resolved place, and the activity's end time (HH:MM). -/
theorem timeline_block_five_lines (c : Course) (a : Activity) (loc : Location)
    (ht : '\n' ∉ c.title.data) (hn : '\n' ∉ a.name.data)
    (hp : '\n' ∉ loc.place.data) :
    splitNl (activity_text c a loc).data =
      [c.title.data, [], a.name.data, loc.place.data, (fmtHM a.«end»).data] := by
  rw [activity_text_data]
  rw [splitNl_append _ _ ht]
  rw [show ('\n' :: (a.name.data ++ '\n' :: (loc.place.data ++ '\n' :: (fmtHM a.«end»).data))) =
    [] ++ '\n' :: (a.name.data ++ '\n' :: (loc.place.data ++ '\n' :: (fmtHM a.«end»).data)) from rfl]
  rw [splitNl_append _ _ (by simp)]
  rw [splitNl_append _ _ hn]
  rw [splitNl_append _ _ hp]
  rw [splitNl_no_nl _ (noNl_fmtHM a.«end»)]

/-- Claim C2 witness: the five-line theorem evaluated at the concrete
example block. -/
theorem timeline_block_five_lines_witness :
    splitNl (activity_text courseW actW locW).data =
      [courseW.title.data, [], actW.name.data, locW.place.data,
        (fmtHM actW.«end»).data] :=
  timeline_block_five_lines courseW actW locW (by decide) (by decide) (by decide)

/-! Claim C6. -/

theorem print_activity_no_newline (colour_of : Course → String) (reset : String)
    (d : Int) (c : Course) (a : Activity)
    (hcol : '\n' ∉ (colour_of c).data) (ht : '\n' ∉ c.title.data)
    (hres : '\n' ∉ reset.data) (hn : '\n' ∉ a.name.data)
    (hp : '\n' ∉ (location_valid_for a d).place.data) :
    '\n' ∉ (print_activity colour_of reset d c a).data := by
  have hd1 : '\n' ∉ (" - " : String).data := by decide
  have hd2 : '\n' ∉ (" :: " : String).data := by decide
  have hd3 : '\n' ∉ (" " : String).data := by decide
  have hd4 : '\n' ∉ (" @ " : String).data := by decide
  simp only [print_activity, String.data_append, List.mem_append, List.append_assoc]
  simp [hcol, ht, hres, hn, hp, hd1, hd2, hd3, hd4, noNl_fmtHM]

/-- Claim C6: in the day view (non-timeline), one line is emitted per
(course, activity) pair, in selector order; the line carries the zero-padded
HH:MM start and end times, the course title wrapped in its display colour,
the activity name and the resolved place, and it is a single line whenever
its input fields contain no newline. -/
theorem day_view_one_line_per_activity (colour_of : Course → String)
    (reset : String) (d : Int) (acts : List (Course × Activity)) :
    (day_view_lines colour_of reset d acts).length = acts.length ∧
    (∀ i : Nat, (day_view_lines colour_of reset d acts)[i]? =
      (acts[i]?).map (fun ca => print_activity colour_of reset d ca.1 ca.2)) ∧
    (∀ c a, (c, a) ∈ acts →
      ((fmtHM a.start ++ " - " ++ fmtHM a.«end»).data <:+:
          (print_activity colour_of reset d c a).data ∧
        (colour_of c ++ c.title ++ reset).data <:+:
          (print_activity colour_of reset d c a).data ∧
        a.name.data <:+: (print_activity colour_of reset d c a).data ∧
        (location_valid_for a d).place.data <:+:
          (print_activity colour_of reset d c a).data ∧
        ('\n' ∉ (colour_of c).data → '\n' ∉ c.title.data → '\n' ∉ reset.data →
          '\n' ∉ a.name.data → '\n' ∉ (location_valid_for a d).place.data →
          splitNl (print_activity colour_of reset d c a).data =
            [(print_activity colour_of reset d c a).data]))) := by
  refine ⟨by simp [day_view_lines], fun i => by simp [day_view_lines], ?_⟩
  intro c a _
  refine ⟨?_, ?_, ?_, ?_, ?_⟩
  · refine ⟨[], (" :: " ++ (colour_of c ++ c.title ++ reset) ++ " " ++ a.name ++
      " @ " ++ (location_valid_for a d).place).data, ?_⟩
    simp [print_activity, String.data_append, List.append_assoc]
  · refine ⟨(fmtHM a.start ++ " - " ++ fmtHM a.«end» ++ " :: ").data,
      (" " ++ a.name ++ " @ " ++ (location_valid_for a d).place).data, ?_⟩
    simp [print_activity, String.data_append, List.append_assoc]
  · refine ⟨(fmtHM a.start ++ " - " ++ fmtHM a.«end» ++ " :: " ++
      (colour_of c ++ c.title ++ reset) ++ " ").data,
      (" @ " ++ (location_valid_for a d).place).data, ?_⟩
    simp [print_activity, String.data_append, List.append_assoc]
  · refine ⟨(fmtHM a.start ++ " - " ++ fmtHM a.«end» ++ " :: " ++
      (colour_of c ++ c.title ++ reset) ++ " " ++ a.name ++ " @ ").data, [], ?_⟩
    simp [print_activity, String.data_append, List.append_assoc]
  · intro hcol ht hres hn hp
    exact splitNl_no_nl _ (print_activity_no_newline colour_of reset d c a hcol ht hres hn hp)

/-- Claim C6 witness: the spec's end-to-end example, one Monday activity
09:00-10:00 at room "A1" for course "CS101": exactly one line is produced
and it contains the start-end times, the wrapped title, the name and the
place. -/
theorem day_view_one_line_per_activity_witness :
    (day_view_lines colW resW 0 [(courseW, actW)]).length = 1 ∧
    (day_view_lines colW resW 0 [(courseW, actW)])[0]? =
      some (print_activity colW resW 0 courseW actW) ∧
    (fmtHM actW.start ++ " - " ++ fmtHM actW.«end»).data <:+:
      (print_activity colW resW 0 courseW actW).data ∧
    (colW courseW ++ courseW.title ++ resW).data <:+:
      (print_activity colW resW 0 courseW actW).data ∧
    (location_valid_for actW 0).place.data <:+:
      (print_activity colW resW 0 courseW actW).data ∧
    splitNl (print_activity colW resW 0 courseW actW).data =
      [(print_activity colW resW 0 courseW actW).data] := by
  have h := day_view_one_line_per_activity colW resW 0 [(courseW, actW)]
  have hm := h.2.2 courseW actW (by decide)
  exact ⟨h.1, h.2.1 0, hm.1, hm.2.1, hm.2.2.2.1,
    hm.2.2.2.2 (by decide) (by decide) (by decide) (by decide) (by decide)⟩

/-! Claim C5. -/

theorem foldl_max_init (l : List Nat) (i : Nat) : i ≤ l.foldl Nat.max i := by
  induction l generalizing i with
  | nil => exact Nat.le_refl i
  | cons x t ih => exact Nat.le_trans (Nat.le_max_left i x) (ih (Nat.max i x))

theorem foldl_max_le (l : List Nat) : ∀ (i n : Nat), n ∈ l → n ≤ l.foldl Nat.max i := by
  induction l with
  | nil => intro i n h; cases h
  | cons x t ih =>
    intro i n h
    rcases List.mem_cons.mp h with rfl | h'
    · exact Nat.le_trans (Nat.le_max_right i n) (foldl_max_init t (Nat.max i n))
    · exact ih (Nat.max i x) n h'

theorem foldl_max_choice (l : List Nat) : ∀ (i : Nat),
    l.foldl Nat.max i = i ∨ l.foldl Nat.max i ∈ l := by
  induction l with
  | nil => exact fun i => Or.inl rfl
  | cons x t ih =>
    intro i
    rcases ih (Nat.max i x) with h | h
    · rcases Nat.le_total i x with hle | hle
      · have hmx : Nat.max i x = x := Nat.max_eq_right hle
        right
        rw [List.foldl_cons, h, hmx]
        exact List.mem_cons_self x t
      · have hmx : Nat.max i x = i := Nat.max_eq_left hle
        left
        rw [List.foldl_cons, h, hmx]
    · exact Or.inr (List.mem_cons_of_mem x h)

theorem foldl_max_zero_mem (l : List Nat) (h : l ≠ []) : l.foldl Nat.max 0 ∈ l := by
  cases l with
  | nil => exact absurd rfl h
  | cons n t =>
    have h0 : (n :: t).foldl Nat.max 0 = t.foldl Nat.max n := by
      simp [List.foldl_cons]
    rcases foldl_max_choice t n with hc | hc
    · rw [h0, hc]
      exact List.mem_cons_self n t
    · rw [h0]
      exact List.mem_cons_of_mem n hc

theorem timeline_max_len_eq (d : Int) (acts : List (Course × Activity)) :
    timeline_max_len d acts =
      ((timeline_lines d acts).map String.length).foldl Nat.max 0 := by
  simp [timeline_max_len, List.foldl_map]

/-- Claim C5: the timeline's uniform box width is 4 times the length of the
single longest string among all course titles, activity names and resolved
places of the batch, and an empty batch yields no layout (and hence no
rendering call) at all. -/
theorem timeline_box_width_and_empty (d : Int) (acts : List (Course × Activity)) :
    (print_timeline d acts = none ↔ acts = []) ∧
    (acts ≠ [] →
      Option.map TimelineLayout.box_width (print_timeline d acts) =
        some (4 * timeline_max_len d acts) ∧
      timeline_max_len d acts ∈ (timeline_lines d acts).map String.length ∧
      ∀ s ∈ timeline_lines d acts, s.length ≤ timeline_max_len d acts) := by
  constructor
  · cases acts <;> simp [print_timeline]
  · intro h
    refine ⟨?_, ?_, ?_⟩
    · cases acts with
      | nil => exact absurd rfl h
      | cons ca rest => simp [print_timeline, Nat.mul_comm]
    · rw [timeline_max_len_eq]
      refine foldl_max_zero_mem _ ?_
      cases acts with
      | nil => exact absurd rfl h
      | cons ca rest => simp [timeline_lines, timeline_triples]
    · intro s hs
      rw [timeline_max_len_eq]
      exact foldl_max_le _ 0 s.length (List.mem_map_of_mem String.length hs)

/-- Claim C5 witness: a two-activity batch whose longest label is the
9-character "MATH102 x", and the empty batch. -/
theorem timeline_box_width_and_empty_witness :
    (print_timeline 0 ([] : List (Course × Activity)) = none) ∧
    ([(courseW, actW)] : List (Course × Activity)) ≠ [] ∧
    Option.map TimelineLayout.box_width (print_timeline 0 [(courseW, actW)]) =
      some (4 * timeline_max_len 0 [(courseW, actW)]) := by
  refine ⟨(timeline_box_width_and_empty 0 []).1.mpr rfl, by simp, ?_⟩
  exact ((timeline_box_width_and_empty 0 [(courseW, actW)]).2 (by simp)).1

/-! Claim C9. -/

theorem aget_aset_self (k : String) (v : List String)
    (m : List (String × List String)) : aget k (aset k v m) = some v := by
  induction m with
  | nil => simp [aset, aget]
  | cons p rest ih =>
    obtain ⟨k', v'⟩ := p
    by_cases h : k' = k
    · simp [aset, aget, h]
    · simp [aset, aget, h, ih]

theorem aget_aset_ne (k k' : String) (hne : k' ≠ k) (v : List String)
    (m : List (String × List String)) : aget k (aset k' v m) = aget k m := by
  induction m with
  | nil => simp [aset, aget, hne]
  | cons p rest ih =>
    obtain ⟨k₀, v₀⟩ := p
    by_cases h : k₀ = k'
    · subst h
      simp [aset, aget, hne]
    · by_cases h2 : k₀ = k <;>
        simp [aset, aget, h, h2, ih, Ne.symm hne]

theorem fst_aset_mem (k : String) (v : List String)
    (m : List (String × List String)) (h : k ∈ m.map Prod.fst) :
    (aset k v m).map Prod.fst = m.map Prod.fst := by
  induction m with
  | nil => cases h
  | cons p rest ih =>
    obtain ⟨k₀, v₀⟩ := p
    by_cases hk : k₀ = k
    · simp [aset, hk]
    · have h' : k ∈ rest.map Prod.fst := by
        rcases List.mem_cons.mp h with h | h
        · exact absurd h.symm hk
        · exact h
      simp [aset, hk, ih h']

theorem fst_aset_not_mem (k : String) (v : List String)
    (m : List (String × List String)) (h : k ∉ m.map Prod.fst) :
    (aset k v m).map Prod.fst = m.map Prod.fst ++ [k] := by
  induction m with
  | nil => simp [aset]
  | cons p rest ih =>
    obtain ⟨k₀, v₀⟩ := p
    have hk : k₀ ≠ k := by
      intro hh
      exact h (by simp [hh])
    have h' : k ∉ rest.map Prod.fst := fun hh => h (by simp [hh])
    simp [aset, hk, ih h']

theorem od_build_get_aux (l : List (String × String)) :
    ∀ (m : List (String × List String)) (k : String),
      (aget k (l.foldl (fun m' kv => od_insert kv.1 kv.2 m') m)).getD [] =
        (aget k m).getD [] ++
          ((l.filter (fun kv => decide (kv.1 = k))).map Prod.snd) := by
  induction l with
  | nil => simp
  | cons kv rest ih =>
    intro m k
    simp only [List.foldl_cons]
    rw [ih]
    by_cases h : kv.1 = k
    · subst h
      simp [od_insert, aget_aset_self, List.filter_cons]
    · simp [od_insert, aget_aset_ne k kv.1 h, List.filter_cons, h]

theorem od_build_get (l : List (String × String)) (k : String) :
    (aget k (od_build l)).getD [] =
      (l.filter (fun kv => decide (kv.1 = k))).map Prod.snd := by
  simpa [aget] using od_build_get_aux l [] k

theorem first_seen_from_congr (s₁ s₂ : List String)
    (h : ∀ x, x ∈ s₁ ↔ x ∈ s₂) (l : List String) :
    first_seen_from s₁ l = first_seen_from s₂ l := by
  induction l generalizing s₁ s₂ with
  | nil => rfl
  | cons x xs ih =>
    by_cases hx : x ∈ s₁
    · simp [first_seen_from, hx, (h x).mp hx, ih s₁ s₂ h]
    · have hx2 : x ∉ s₂ := fun hh => hx ((h x).mpr hh)
      have hext : ∀ y, y ∈ x :: s₁ ↔ y ∈ x :: s₂ := by
        intro y
        simp [List.mem_cons, h y]
      simp [first_seen_from, hx, hx2, ih (x :: s₁) (x :: s₂) hext]

theorem od_build_keys_aux (l : List (String × String)) :
    ∀ (m : List (String × List String)),
      (l.foldl (fun m' kv => od_insert kv.1 kv.2 m') m).map Prod.fst =
        m.map Prod.fst ++ first_seen_from (m.map Prod.fst) (l.map Prod.fst) := by
  induction l with
  | nil => simp [first_seen_from]
  | cons kv rest ih =>
    intro m
    simp only [List.foldl_cons, List.map_cons]
    rw [ih]
    by_cases h : kv.1 ∈ m.map Prod.fst
    · have hfst : (od_insert kv.1 kv.2 m).map Prod.fst = m.map Prod.fst :=
        fst_aset_mem kv.1 _ m h
      simp [hfst, first_seen_from, h]
    · have hfst : (od_insert kv.1 kv.2 m).map Prod.fst = m.map Prod.fst ++ [kv.1] :=
        fst_aset_not_mem kv.1 _ m h
      have hcongr := first_seen_from_congr (m.map Prod.fst ++ [kv.1])
        (kv.1 :: m.map Prod.fst) (by intro y; simp [List.mem_append, or_comm])
        (rest.map Prod.fst)
      simp [hfst, first_seen_from, h, hcongr, List.append_assoc]

theorem od_build_keys (l : List (String × String)) :
    (od_build l).map Prod.fst = first_seen (l.map Prod.fst) := by
  simpa [od_build, first_seen] using od_build_keys_aux l []

theorem filter_of_map {α β : Type} (g : α → β) (p : β → Bool) (l : List α) :
    (l.map g).filter p = (l.filter (fun x => p (g x))).map g := by
  induction l with
  | nil => rfl
  | cons x t ih =>
    by_cases h : p (g x) <;> simp [List.filter_cons, h, ih]

/-- Claim C9: in the timeline layout, the text blocks inside each start-time
bucket keep the relative order of the input activities, and the buckets
themselves appear in first-seen key order. -/
theorem timeline_buckets_stable (d : Int) (acts : List (Course × Activity)) :
    (∀ k : String,
      (aget k (timeline_mapping d acts)).getD [] =
        ((timeline_triples d acts).filter
            (fun t => decide (fmtHM t.2.1.start = k))).map
          (fun t => activity_text t.1 t.2.1 t.2.2)) ∧
    (timeline_mapping d acts).map Prod.fst =
      first_seen ((timeline_triples d acts).map (fun t => fmtHM t.2.1.start)) := by
  constructor
  · intro k
    rw [timeline_mapping, od_build_get, filter_of_map, List.map_map]
    rfl
  · rw [timeline_mapping, od_build_keys, List.map_map]
    rfl

/-! Claim C4. -/

/-- Claim C4: the next-activity finder returns the first (course, activity)
pair whose start time is strictly later than now's time of day, and `none`
(not an error) when no activity starts strictly later. -/
theorem find_next_first_strictly_later (acts : List (Course × Activity)) (t : Time) :
    (find_next acts t = none ↔ ∀ ca ∈ acts, Time.ltb t ca.2.start = false) ∧
    (∀ (pre : List (Course × Activity)) (ca : Course × Activity)
        (post : List (Course × Activity)),
      acts = pre ++ ca :: post →
      Time.ltb t ca.2.start = true →
      (∀ x ∈ pre, Time.ltb t x.2.start = false) →
      find_next acts t = some ca) := by
  constructor
  · simp only [find_next, List.find?_eq_none, Bool.not_eq_true]
  · intro pre ca post heq hca hpre
    subst heq
    revert hpre
    induction pre with
    | nil =>
      intro _
      exact List.find?_cons_of_pos _ hca
    | cons x pre' ih =>
      intro hpre
      have hx := hpre x (List.mem_cons_self x pre')
      show List.find? _ ((x :: pre') ++ ca :: post) = some ca
      rw [List.cons_append, List.find?_cons_of_neg _ (by simp [hx])]
      exact ih (fun y hy => hpre y (List.mem_cons_of_mem x hy))

/-- Claim C4 witness: with activities at 09:00 and 14:00, the finder called
at 10:00 returns the 14:00 activity, and called at 15:00 returns none. -/
theorem find_next_first_strictly_later_witness :
    find_next [(courseW, actW), (courseM, act14)] ⟨10, 0, 0⟩ =
        some (courseM, act14) ∧
    find_next [(courseW, actW), (courseM, act14)] ⟨15, 0, 0⟩ = none := by
  constructor
  · exact (find_next_first_strictly_later [(courseW, actW), (courseM, act14)]
      ⟨10, 0, 0⟩).2 [(courseW, actW)] (courseM, act14) [] rfl (by decide) (by decide)
  · exact (find_next_first_strictly_later [(courseW, actW), (courseM, act14)]
      ⟨15, 0, 0⟩).1.mpr (by decide)

/-! Claim C3. -/

/-- Claim C3 counterexample: at `now` = 10:00:30 and a next activity
starting at 14:00, the code prints the delta 4:00:00 (the `replace` call
keeps `now`'s seconds and microseconds), while the claimed "start anchored
to today minus now" is 3:59:30. -/
theorem next_time_delta_counterexample :
    ¬ next_time_delta nowX act14 = spec_time_delta nowX act14 := by
  decide

/-- Claim C3 (amended): the printed value is `now` with hour and minute
replaced by the start's hour and minute, minus `now`; this equals the
spec's anchored delta whenever `now`'s second and microsecond components
and the start's second component are all zero. -/
theorem next_time_delta_matches_spec_on_whole_minutes (now : DateTime)
    (a : Activity) (h1 : now.second = 0) (h2 : now.micro = 0)
    (h3 : a.start.second = 0) :
    next_time_delta now a = spec_time_delta now a := by
  simp only [next_time_delta, spec_time_delta, DateTime.toMicros,
    replace_hour_minute, h1, h2, h3]

/-- Claim C3 witness: at a whole-minute `now` the code's delta and the
spec's anchored delta agree. -/
theorem next_time_delta_matches_spec_witness :
    next_time_delta now0 act14 = spec_time_delta now0 act14 :=
  next_time_delta_matches_spec_on_whole_minutes now0 act14 rfl rfl rfl

/-! Claim C7. -/

theorem trace_props (l : List String) (cm : Cmd) (cs : List String) :
    ((l.map Effect.fetch ++
        [Effect.view cm, Effect.write_cache cs]).filter is_write_cache).length = 1 ∧
    (l.map Effect.fetch ++
        [Effect.view cm, Effect.write_cache cs]).getLast? =
      some (Effect.write_cache cs) ∧
    Effect.view cm ∈ l.map Effect.fetch ++ [Effect.view cm, Effect.write_cache cs] := by
  refine ⟨?_, ?_, ?_⟩
  · induction l with
    | nil => rfl
    | cons x xs ih => simp [List.filter_cons, is_write_cache, ih]
  · rw [show [Effect.view cm, Effect.write_cache cs] =
      [Effect.view cm] ++ [Effect.write_cache cs] from rfl, ← List.append_assoc]
    exact List.getLast?_concat _
  · simp

/-- Claim C7: every run that completes a view flow persists the course list
back to the cache exactly once, as its final effect, unconditionally —
whatever the command, cache state or drop-cache flag. -/
theorem main_writes_cache_exactly_once (p c : Bool) (data : Option (List String))
    (cfg : List String) (args : Args) (tr : List Effect)
    (h : main_run p c data cfg args = Except.ok tr) :
    (tr.filter is_write_cache).length = 1 ∧
    tr.getLast? = some (Effect.write_cache (run_courses data cfg args)) ∧
    Effect.view args.cmd ∈ tr := by
  cases p
  · simp [main_run] at h
  · cases c
    · simp [main_run] at h
    · rcases data with _ | d
      · have h2 := h
        simp [main_run] at h2
        subst h2
        exact trace_props cfg args.cmd _
      · by_cases hdc : args.drop_cache
        · have h2 := h
          simp [main_run, hdc] at h2
          subst h2
          exact trace_props cfg args.cmd _
        · have h2 := h
          simp [main_run, hdc] at h2
          subst h2
          simpa using trace_props [] args.cmd _

/-- Claim C7 witness: a cold-cache `show` run fetches, views, then writes
the cache exactly once as the last effect. -/
theorem main_writes_cache_exactly_once_witness :
    (([Effect.fetch "CS101", Effect.view Cmd.showCmd,
        Effect.write_cache ["CS101"]].filter is_write_cache).length = 1) ∧
    ([Effect.fetch "CS101", Effect.view Cmd.showCmd,
        Effect.write_cache ["CS101"]].getLast? =
      some (Effect.write_cache (run_courses none ["CS101"] argsW))) ∧
    Effect.view argsW.cmd ∈
      [Effect.fetch "CS101", Effect.view Cmd.showCmd, Effect.write_cache ["CS101"]] :=
  main_writes_cache_exactly_once true true none ["CS101"] argsW
    [Effect.fetch "CS101", Effect.view Cmd.showCmd, Effect.write_cache ["CS101"]]
    rfl

/-! Claim C10. -/

/-- Claim C10: the week view always prints its header line first, and when
the week's activity union is empty the header is the only line printed
(the empty-union check suppresses only the grid). -/
theorem week_view_header_always_printed (render : List (List String) → String)
    (fmt : Int → String) (acts_on : Int → List (Course × Activity)) (d : Int) :
    (show_week render fmt acts_on d).head? =
        some ("Showing timetable for " ++ fmt d) ∧
    (week_day_activities acts_on d = [] →
      show_week render fmt acts_on d = ["Showing timetable for " ++ fmt d]) := by
  constructor
  · rfl
  · intro h
    simp [show_week, print_week_timetable, h]

/-- Claim C10 witness: a week with no activities still prints exactly the
header line. -/
theorem week_view_header_always_printed_witness :
    (show_week (fun _ => "") (fun _ => "week 41 of 2026") (fun _ => []) 0).head? =
        some ("Showing timetable for " ++ "week 41 of 2026") ∧
    show_week (fun _ => "") (fun _ => "week 41 of 2026") (fun _ => []) 0 =
      ["Showing timetable for " ++ "week 41 of 2026"] := by
  have h := week_view_header_always_printed (fun _ => "")
    (fun _ => "week 41 of 2026") (fun _ => []) 0
  exact ⟨h.1, h.2 (by decide)⟩

/-! Claim C8. -/

theorem foldl_keep (g : Course × Activity → Time) (stp : Time → Time → Bool) :
    ∀ (xs : List (Course × Activity)) (cur : Time),
      (∀ y ∈ xs, stp (g y) cur = false) →
      xs.foldl (fun c y => if stp (g y) c then g y else c) cur = cur := by
  intro xs
  induction xs with
  | nil => intro cur _; rfl
  | cons z zs ih =>
    intro cur h
    have hz := h z (List.mem_cons_self z zs)
    rw [List.foldl_cons, if_neg (by simp [hz])]
    exact ih cur (fun y hy => h y (List.mem_cons_of_mem z hy))

theorem foldl_pick_mem (g : Course × Activity → Time) (stp : Time → Time → Bool) :
    ∀ (xs : List (Course × Activity)) (cur : Time),
      xs.foldl (fun c y => if stp (g y) c then g y else c) cur = cur ∨
      ∃ y ∈ xs, xs.foldl (fun c y => if stp (g y) c then g y else c) cur = g y := by
  intro xs
  induction xs with
  | nil => exact fun cur => Or.inl rfl
  | cons z zs ih =>
    intro cur
    rw [List.foldl_cons]
    by_cases h : stp (g z) cur = true
    · rw [if_pos h]
      rcases ih (g z) with h2 | ⟨y, hy, he⟩
      · exact Or.inr ⟨z, List.mem_cons_self z zs, h2⟩
      · exact Or.inr ⟨y, List.mem_cons_of_mem z hy, he⟩
    · rw [if_neg h]
      rcases ih cur with h2 | ⟨y, hy, he⟩
      · exact Or.inl h2
      · exact Or.inr ⟨y, List.mem_cons_of_mem z hy, he⟩

/-- Claim C8: an activity whose end hour equals its start hour is appended
to no cell of the week grid, while its start and end times still take part
in the hour-range computation (they become the grid's earliest start or
latest end whenever no other activity beats them). -/
theorem same_hour_activity_fills_no_cell (c : Course) (a : Activity)
    (rest : List (Course × Activity)) (h : a.«end».hour = a.start.hour) :
    (∀ q : Nat × Nat, week_cells ((c, a) :: rest) q = week_cells rest q) ∧
    ((∀ y ∈ rest, Time.ltb y.2.start a.start = false) →
      min_start_time (c, a) rest = a.start) ∧
    ((∀ y ∈ rest, Time.ltb a.«end» y.2.«end» = false) →
      max_end_time (c, a) rest = a.«end») := by
  refine ⟨?_, ?_, ?_⟩
  · intro q
    simp only [week_cells, List.foldl_cons, h, Nat.sub_self, List.range_zero,
      List.foldl_nil]
  · intro hy
    exact foldl_keep (fun y => y.2.start) (fun t u => Time.ltb t u) rest a.start hy
  · intro hy
    exact foldl_keep (fun y => y.2.«end») (fun t u => Time.ltb u t) rest a.«end» hy

/-- Claim C8 witness: the 09:00-09:50 quiz fills no cell (here checked at
the Monday 09:00 cell) yet its start is the computed earliest start. -/
theorem same_hour_activity_fills_no_cell_witness :
    week_cells [(courseW, actShort), (courseM, actAft)] (0, 9) =
      week_cells [(courseM, actAft)] (0, 9) ∧
    min_start_time (courseW, actShort) [(courseM, actAft)] = actShort.start := by
  have h := same_hour_activity_fills_no_cell courseW actShort [(courseM, actAft)]
    (by decide)
  exact ⟨h.1 (0, 9), h.2.1 (by decide)⟩

/-! Claim C1. -/

theorem range_filter_min (e l : Nat) : ∀ N : Nat,
    (List.range N).filter (fun x => decide (e ≤ x) && decide (x < l)) =
      (List.range (Nat.min l N - e)).map (fun k => e + k) := by
  intro N
  induction N with
  | zero => simp
  | succ n ih =>
    rw [List.range_succ, List.filter_append, ih]
    by_cases h1 : e ≤ n
    · by_cases h2 : n < l
      · have hm1 : Nat.min l (n + 1) = n + 1 := Nat.min_eq_right (by omega)
        have hm2 : Nat.min l n = n := Nat.min_eq_right (Nat.le_of_lt h2)
        have hfil : List.filter (fun x => decide (e ≤ x) && decide (x < l)) [n] = [n] := by
          simp [List.filter_cons, h1, h2]
        rw [hm1, hm2, hfil, show n + 1 - e = (n - e) + 1 by omega, List.range_succ,
          List.map_append]
        simp only [List.map_cons, List.map_nil]
        rw [show e + (n - e) = n by omega]
      · have hle : l ≤ n := Nat.le_of_not_lt h2
        have hm : Nat.min l (n + 1) = Nat.min l n := by
          have e1 : Nat.min l (n + 1) = l := Nat.min_eq_left (by omega)
          have e2 : Nat.min l n = l := Nat.min_eq_left hle
          rw [e1, e2]
        have hfil : List.filter (fun x => decide (e ≤ x) && decide (x < l)) [n] = [] := by
          simp [List.filter_cons, h2]
        rw [hm, hfil, List.append_nil]
    · have hgt : n < e := Nat.lt_of_not_le h1
      have ha : Nat.min l (n + 1) - e = 0 :=
        Nat.sub_eq_zero_of_le (Nat.le_trans (Nat.min_le_right l (n + 1)) (by omega))
      have hb : Nat.min l n - e = 0 :=
        Nat.sub_eq_zero_of_le (Nat.le_trans (Nat.min_le_right l n) (by omega))
      have hfil : List.filter (fun x => decide (e ≤ x) && decide (x < l)) [n] = [] := by
        simp [List.filter_cons, h1]
      rw [hfil, List.append_nil, ha, hb]

theorem range_filter_interval (e l : Nat) (h : l ≤ 24) :
    (List.range 24).filter (fun x => decide (e ≤ x) && decide (x < l)) =
      (List.range (l - e)).map (fun k => e + k) := by
  have hmin : Nat.min l 24 = l := Nat.min_eq_left h
  have := range_filter_min e l 24
  rwa [hmin] at this

/-- Claim C1: for a non-empty weekly union, the grid's label column after
the header is exactly the ascending hours from the truncated minimum start
hour (inclusive) up to the rounded-up maximum end hour (exclusive); the
rounding adds an hour exactly when the latest end time has a nonzero minute
or second component (rolling over past midnight like the code's datetime
arithmetic). -/
theorem week_grid_rows_cover_hour_range
    (acts_on : Int → List (Course × Activity)) (d : Int)
    (x : Course × Activity) (xs : List (Course × Activity))
    (hw : week_day_activities acts_on d = x :: xs)
    (hv : ∀ ca ∈ x :: xs, ca.2.«end».hour < 24) :
    Option.map (fun tbl => tbl.map (fun r => r.headD ""))
        (print_week_timetable acts_on d) =
      some ("" ::
        ((List.range 24).filter (fun hr =>
            decide ((truncate_hour (min_start_time x xs)).hour ≤ hr) &&
            decide (hr < (round_up_hour (max_end_time x xs)).hour))).map
          hour_label) := by
  have hMh : (max_end_time x xs).hour < 24 := by
    rcases foldl_pick_mem (fun y => y.2.«end») (fun t u => Time.ltb u t) xs
        x.2.«end» with h | ⟨y, hy, he⟩
    · rw [show max_end_time x xs = x.2.«end» from h]
      exact hv x (List.mem_cons_self x xs)
    · rw [show max_end_time x xs = y.2.«end» from he]
      exact hv y (List.mem_cons_of_mem x hy)
  have hlat : (round_up_hour (max_end_time x xs)).hour < 24 := by
    unfold round_up_hour
    split_ifs with hc
    · exact Nat.mod_lt _ (by decide)
    · exact hMh
  rw [range_filter_interval _ _ (Nat.le_of_lt hlat)]
  simp [print_week_timetable, hw, List.map_map, truncate_hour, Function.comp,
    week_header_row]

/-- Claim C1 witness: the spec's example — activities 09:00-10:30 and
13:00-14:00 in the same week — yields exactly the hour rows 09:00 through
13:00. -/
theorem week_grid_rows_cover_hour_range_witness :
    Option.map (fun tbl => tbl.map (fun r => r.headD ""))
        (print_week_timetable c1_acts_on 0) =
      some ("" ::
        ((List.range 24).filter (fun hr =>
            decide ((truncate_hour (min_start_time (courseW, actHalf)
              [(courseM, actAft)])).hour ≤ hr) &&
            decide (hr < (round_up_hour (max_end_time (courseW, actHalf)
              [(courseM, actAft)])).hour))).map hour_label) ∧
    Option.map (fun tbl => tbl.map (fun r => r.headD ""))
        (print_week_timetable c1_acts_on 0) =
      some ["", "09:00", "10:00", "11:00", "12:00", "13:00"] := by
  have h := week_grid_rows_cover_hour_range c1_acts_on 0 (courseW, actHalf)
    [(courseM, actAft)] (by decide) (by decide)
  exact ⟨h, h.trans (by decide)⟩

end TimetableModel
